import Mathlib

/-!
Verification of the orbits N-body simulation (src/main.rs, src/tools.rs).

Scalars are modelled by real numbers, 2D vectors (`nalgebra` `Point2<f32>` /
`Vector2<f32>`) by pairs of reals with componentwise operations.  Stateful
code is modelled by explicit state passing; Rust panics become `Except.error`.
The registry `HashMap<usize, RefCell<Planet>>` is modelled by an association
list keyed by the id; `HashSet` iteration (whose order is unspecified) is
modelled by quantifying over an arbitrary member list.

The struct `Planet` and its constructor live in src/planet.rs, which is not
part of the available sources; they are modelled from the spec (section 3)
and from their uses in src/main.rs and src/tools.rs, as marked below.
-/

/-- Gravitational constant, src/main.rs line 19: `pub const G: f32 = 0.0001`. -/
noncomputable def G : ℝ := 0.0001

/-- src/tools.rs: `volume_of_sphere(radius) = (4.0/3.0) * PI * radius.powi(3)`. -/
noncomputable def volume_of_sphere (radius : ℝ) : ℝ :=
  (4 / 3) * Real.pi * radius ^ (3 : ℕ)

/-- src/tools.rs: `inverse_volume_of_sphere(volume) = ((3*volume)/(4*PI)).powf(1/3)`. -/
noncomputable def inverse_volume_of_sphere (volume : ℝ) : ℝ :=
  ((3 * volume) / (4 * Real.pi)) ^ ((1 : ℝ) / 3)

/-- Modelled from the spec: the Body record (section 3); src/planet.rs is not in
the available sources.  Field names follow their uses in src/main.rs and
src/tools.rs (`position`, `velocity`, `resultant_force`, `mass`, `radius`, `id`). -/
structure Planet where
  id : ℕ
  position : ℝ × ℝ
  velocity : ℝ × ℝ
  resultant_force : ℝ × ℝ
  mass : ℝ
  radius : ℝ

/-- Modelled from the spec: `Planet::new(id, position, velocity, mass, radius)`
(src/planet.rs is not in the available sources).  Per spec section 4.1 the
velocity defaults to zero and an omitted mass is derived from the radius by an
external density policy (unspecified; shown here as unit density — every
claim-relevant call site passes an explicit mass).  Per spec sections 3 and 4.6
the force accumulator starts at zero. -/
noncomputable def Planet.new (id : ℕ) (position : ℝ × ℝ) (velocity : Option (ℝ × ℝ))
    (mass : Option ℝ) (radius : ℝ) : Planet :=
  { id := id
    position := position
    velocity := velocity.getD (0, 0)
    resultant_force := (0, 0)
    mass := mass.getD (volume_of_sphere radius)
    radius := radius }

/-- src/tools.rs lines 28-33:
`force_vec = dist_vec * (G * pl1.mass * pl2.mass / dist_squared.sqrt().powi(3))`,
then `pl1.resultant_force += force_vec; pl2.resultant_force -= force_vec`. -/
noncomputable def newtonian_grav (pl1 pl2 : Planet) (dist_squared : ℝ)
    (dist_vec : ℝ × ℝ) : Planet × Planet :=
  let force_vec : ℝ × ℝ :=
    (G * pl1.mass * pl2.mass / (Real.sqrt dist_squared) ^ (3 : ℕ)) • dist_vec
  ({ pl1 with resultant_force := pl1.resultant_force + force_vec },
   { pl2 with resultant_force := pl2.resultant_force - force_vec })

/-- C2: for bodies at non-coincident positions, with `d = position(b) - position(a)`
and `r2 = |d|^2`, `newtonian_grav` adds to the first accumulator exactly the vector
of magnitude `G*m1*m2/r2` along the normalized `d`, adds its exact negation to the
second accumulator, and the sum of the two accumulators is unchanged. -/
theorem newtonian_grav_third_law (pl1 pl2 : Planet)
    (hpos : pl2.position ≠ pl1.position) :
    (newtonian_grav pl1 pl2
        ((pl2.position - pl1.position).1 ^ 2 + (pl2.position - pl1.position).2 ^ 2)
        (pl2.position - pl1.position)).1.resultant_force
      = pl1.resultant_force +
        (G * pl1.mass * pl2.mass /
            ((pl2.position - pl1.position).1 ^ 2 + (pl2.position - pl1.position).2 ^ 2)) •
          ((Real.sqrt ((pl2.position - pl1.position).1 ^ 2 +
              (pl2.position - pl1.position).2 ^ 2))⁻¹ • (pl2.position - pl1.position))
    ∧ (newtonian_grav pl1 pl2
        ((pl2.position - pl1.position).1 ^ 2 + (pl2.position - pl1.position).2 ^ 2)
        (pl2.position - pl1.position)).2.resultant_force
      = pl2.resultant_force +
        (-((G * pl1.mass * pl2.mass /
            ((pl2.position - pl1.position).1 ^ 2 + (pl2.position - pl1.position).2 ^ 2)) •
          ((Real.sqrt ((pl2.position - pl1.position).1 ^ 2 +
              (pl2.position - pl1.position).2 ^ 2))⁻¹ • (pl2.position - pl1.position))))
    ∧ (newtonian_grav pl1 pl2
        ((pl2.position - pl1.position).1 ^ 2 + (pl2.position - pl1.position).2 ^ 2)
        (pl2.position - pl1.position)).1.resultant_force
      + (newtonian_grav pl1 pl2
        ((pl2.position - pl1.position).1 ^ 2 + (pl2.position - pl1.position).2 ^ 2)
        (pl2.position - pl1.position)).2.resultant_force
      = pl1.resultant_force + pl2.resultant_force := by
  set d := pl2.position - pl1.position with hd
  set r2 := d.1 ^ 2 + d.2 ^ 2 with hr2
  have hscal : G * pl1.mass * pl2.mass / (Real.sqrt r2) ^ (3 : ℕ)
      = G * pl1.mass * pl2.mass / r2 * (Real.sqrt r2)⁻¹ := by
    have hs : Real.sqrt r2 ^ (2 : ℕ) = r2 := by
      have hr2nonneg : 0 ≤ r2 := by positivity
      rw [sq]
      exact Real.mul_self_sqrt hr2nonneg
    calc G * pl1.mass * pl2.mass / (Real.sqrt r2) ^ (3 : ℕ)
        = G * pl1.mass * pl2.mass / (Real.sqrt r2 ^ (2 : ℕ) * Real.sqrt r2) := by
          ring_nf
      _ = G * pl1.mass * pl2.mass / (r2 * Real.sqrt r2) := by rw [hs]
      _ = G * pl1.mass * pl2.mass / r2 * (Real.sqrt r2)⁻¹ := by
          rw [div_mul_eq_div_div, div_eq_mul_inv (G * pl1.mass * pl2.mass / r2)]
  refine ⟨?_, ?_, ?_⟩
  · show pl1.resultant_force +
        (G * pl1.mass * pl2.mass / (Real.sqrt r2) ^ (3 : ℕ)) • d = _
    rw [hscal, mul_smul]
  · show pl2.resultant_force -
        (G * pl1.mass * pl2.mass / (Real.sqrt r2) ^ (3 : ℕ)) • d = _
    rw [hscal, mul_smul, sub_eq_add_neg]
  · show pl1.resultant_force + _ + (pl2.resultant_force - _) = _
    abel

/-- Concrete body at the origin, used by witnesses. -/
def plW1 : Planet := ⟨0, (0, 0), (0, 0), (0, 0), 1, 1⟩

/-- Concrete body at (2, 0), used by witnesses. -/
def plW2 : Planet := ⟨1, (2, 0), (0, 0), (0, 0), 1, 1⟩

/-- Witness for C2 at a concrete pair of non-coincident bodies. -/
theorem newtonian_grav_third_law_witness :
    plW2.position ≠ plW1.position
    ∧ (newtonian_grav plW1 plW2
          ((plW2.position - plW1.position).1 ^ 2 + (plW2.position - plW1.position).2 ^ 2)
          (plW2.position - plW1.position)).1.resultant_force
      + (newtonian_grav plW1 plW2
          ((plW2.position - plW1.position).1 ^ 2 + (plW2.position - plW1.position).2 ^ 2)
          (plW2.position - plW1.position)).2.resultant_force
      = plW1.resultant_force + plW2.resultant_force := by
  have hpos : plW2.position ≠ plW1.position := by
    intro h
    have h1 : (2 : ℝ) = 0 := congrArg Prod.fst h
    norm_num at h1
  exact ⟨hpos, (newtonian_grav_third_law plW1 plW2 hpos).2.2⟩

/-- Concrete body coincident with `plW1` at the origin, used for the degenerate case. -/
def plW3 : Planet := ⟨2, (0, 0), (0, 0), (0, 0), 1, 1⟩

/-- C5 evaluation: `newtonian_grav` applies no minimum-distance floor and no guard on
`dist_squared = 0`.  At two exactly coincident bodies it evaluates the same unguarded
formula `dist_vec * (G*m1*m2 / sqrt(r2)^3)`; in this real-valued model (where `x / 0 = 0`)
the accumulators silently receive a degenerate zero contribution, while in the f32 source
the division `G*m1*m2 / 0` yields infinity and `0 * inf` writes NaN into both
accumulators — there is no defined failure mode. -/
theorem newtonian_grav_degenerate_unguarded :
    (newtonian_grav plW1 plW3 0 (plW3.position - plW1.position)).1.resultant_force
      = plW1.resultant_force
    ∧ (newtonian_grav plW1 plW3 0 (plW3.position - plW1.position)).2.resultant_force
      = plW3.resultant_force := by
  have hd : plW3.position - plW1.position = (0 : ℝ × ℝ) := by
    show ((0 : ℝ), (0 : ℝ)) - (0, 0) = (0 : ℝ × ℝ)
    simp
  constructor
  · show plW1.resultant_force + _ = plW1.resultant_force
    rw [hd, smul_zero, add_zero]
  · show plW3.resultant_force - _ = plW3.resultant_force
    rw [hd, smul_zero, sub_zero]

/-- src/main.rs lines 200-226, `MainState::put_in_collision_group`: scan the existing
groups; at the first group containing `i_id` or `j_id`, insert the missing endpoint
(if any) and stop; if no group contains either endpoint, append the new set
`{i_id, j_id}` at the end. -/
def put_in_collision_group : List (Finset ℕ) → ℕ → ℕ → List (Finset ℕ)
  | [], i_id, j_id => [insert j_id (insert i_id ∅)]
  | g :: gs, i_id, j_id =>
    if i_id ∈ g ∧ j_id ∈ g then g :: gs
    else if i_id ∈ g then insert j_id g :: gs
    else if j_id ∈ g then insert i_id g :: gs
    else g :: put_in_collision_group gs i_id j_id

/-- The collision groups produced by one step, folding `put_in_collision_group` over the
colliding pairs in scan order (src/main.rs lines 274-276 feed each colliding pair to
`put_in_collision_group` with the groups accumulated so far). -/
def foldPairs (pairs : List (ℕ × ℕ)) : List (Finset ℕ) :=
  pairs.foldl (fun groups p => put_in_collision_group groups p.1 p.2) []

/-- C1 evaluation at the failing input: on the colliding pairs (1,2), (3,4), (2,3) the
grouper leaves body 3 in two distinct groups instead of unioning the two sets into the
true connected component {1,2,3,4}. -/
theorem put_in_collision_group_duplicates :
    foldPairs [(1, 2), (3, 4), (2, 3)] = [{1, 2, 3}, {3, 4}]
    ∧ (3 : ℕ) ∈ ({1, 2, 3} : Finset ℕ) ∧ (3 : ℕ) ∈ ({3, 4} : Finset ℕ)
    ∧ ({1, 2, 3} : Finset ℕ) ≠ {3, 4}
    ∧ foldPairs [(1, 2), (3, 4), (2, 3)] ≠ [{1, 2, 3, 4}] := by
  decide

/-- The per-call contract claimed for `put_in_collision_group` (C9): afterwards some
set contains both endpoints, and the call either modified exactly one existing set,
by inserting at most one of the two endpoints, or appended exactly one new
two-element set {i_id, j_id}. -/
def putInGroupClaim (groups : List (Finset ℕ)) (i_id j_id : ℕ) : Prop :=
  (∃ g ∈ put_in_collision_group groups i_id j_id, i_id ∈ g ∧ j_id ∈ g)
  ∧ ((∃ pre g g' suf, groups = pre ++ g :: suf
        ∧ put_in_collision_group groups i_id j_id = pre ++ g' :: suf
        ∧ (g' = g ∨ g' = insert j_id g ∨ g' = insert i_id g))
     ∨ (put_in_collision_group groups i_id j_id
          = groups ++ [insert j_id (insert i_id ∅)]
        ∧ (insert j_id (insert i_id ∅) : Finset ℕ).card = 2))

/-- C9 counterexample: for the pair (0, 0) on an empty group list the appended set
{0, 0} = {0} is a one-element set, not a two-element set, so the claim as stated
(quantified over every pair of ids) fails. -/
theorem put_in_collision_group_selfpair : ¬ putInGroupClaim [] 0 0 := by
  intro h
  rcases h.2 with ⟨pre, g, g', suf, heq, -, -⟩ | ⟨-, hcard⟩
  · cases pre <;> simp at heq
  · exact absurd hcard (by decide)

/-- C9 amended: for every list of groups and every pair of DISTINCT ids, after
`put_in_collision_group` some set contains both ids, and the call either inserts at
most one id into exactly one existing set (all other sets untouched) or appends
exactly one new two-element set {i_id, j_id}. -/
theorem put_in_collision_group_shape (groups : List (Finset ℕ)) (i_id j_id : ℕ)
    (hij : i_id ≠ j_id) : putInGroupClaim groups i_id j_id := by
  induction groups with
  | nil =>
    refine ⟨⟨insert j_id (insert i_id ∅), ?_, ?_, ?_⟩, .inr ⟨rfl, ?_⟩⟩
    · show insert j_id (insert i_id ∅) ∈ [insert j_id (insert i_id ∅)]
      exact List.mem_singleton.mpr rfl
    · exact Finset.mem_insert_of_mem (Finset.mem_insert_self _ _)
    · exact Finset.mem_insert_self _ _
    · rw [Finset.card_insert_of_not_mem (by simpa using Ne.symm hij),
        Finset.card_insert_of_not_mem (Finset.not_mem_empty _), Finset.card_empty]
  | cons g gs ih =>
    by_cases h1 : i_id ∈ g ∧ j_id ∈ g
    · have hres : put_in_collision_group (g :: gs) i_id j_id = g :: gs := by
        simp only [put_in_collision_group, if_pos h1]
      exact ⟨⟨g, by rw [hres]; exact List.mem_cons_self _ _, h1.1, h1.2⟩,
        .inl ⟨[], g, g, gs, rfl, hres, .inl rfl⟩⟩
    · by_cases h2 : i_id ∈ g
      · have hres : put_in_collision_group (g :: gs) i_id j_id = insert j_id g :: gs := by
          simp only [put_in_collision_group, if_neg h1, if_pos h2]
        exact ⟨⟨insert j_id g, by rw [hres]; exact List.mem_cons_self _ _,
            Finset.mem_insert_of_mem h2, Finset.mem_insert_self _ _⟩,
          .inl ⟨[], g, insert j_id g, gs, rfl, hres, .inr (.inl rfl)⟩⟩
      · by_cases h3 : j_id ∈ g
        · have hres : put_in_collision_group (g :: gs) i_id j_id = insert i_id g :: gs := by
            simp only [put_in_collision_group, if_neg h1, if_neg h2, if_pos h3]
          exact ⟨⟨insert i_id g, by rw [hres]; exact List.mem_cons_self _ _,
              Finset.mem_insert_self _ _, Finset.mem_insert_of_mem h3⟩,
            .inl ⟨[], g, insert i_id g, gs, rfl, hres, .inr (.inr rfl)⟩⟩
        · have hres : put_in_collision_group (g :: gs) i_id j_id
              = g :: put_in_collision_group gs i_id j_id := by
            simp only [put_in_collision_group, if_neg h1, if_neg h2, if_neg h3]
          obtain ⟨⟨gf, hgf, hgfi, hgfj⟩, hshape⟩ := ih
          refine ⟨⟨gf, by rw [hres]; exact List.mem_cons_of_mem _ hgf, hgfi, hgfj⟩, ?_⟩
          rcases hshape with ⟨pre, gg, gg', suf, e1, e2, e3⟩ | ⟨e, ec⟩
          · exact .inl ⟨g :: pre, gg, gg', suf, by rw [e1]; rfl, by rw [hres, e2]; rfl, e3⟩
          · exact .inr ⟨by rw [hres, e]; rfl, ec⟩

/-- Witness for C9 (amended) at the concrete distinct pair (0, 1) on the empty list. -/
theorem put_in_collision_group_shape_witness :
    (0 : ℕ) ≠ 1 ∧ putInGroupClaim [] 0 1 :=
  ⟨by decide, put_in_collision_group_shape [] 0 1 (by decide)⟩

/-- The simulation state, src/main.rs lines 21-27: the id counter and the body
registry `HashMap<usize, RefCell<Planet>>`, modelled as an association list keyed
by id.  The presentation-layer fields (emitters, particle trails, mouse state) are
out of scope per spec section 1 and are omitted. -/
structure MainState where
  planet_id_count : ℕ
  planets : List (ℕ × Planet)

/-- Keys currently live in the registry. -/
def keysOf (s : MainState) : List ℕ := s.planets.map Prod.fst

/-- `HashMap::insert`: add the key, replacing any previous binding of it. -/
def hmInsert (m : List (ℕ × Planet)) (k : ℕ) (v : Planet) : List (ℕ × Planet) :=
  (k, v) :: m.filter (fun e => e.1 != k)

/-- src/main.rs lines 76-90, `MainState::add_planet_raw`: overwrite the planet id
with the current counter value, insert it under that key, and increment the
counter.  (The particle-trail bookkeeping is presentation glue, omitted.) -/
def add_planet_raw (s : MainState) (planet : Planet) : MainState :=
  { planet_id_count := s.planet_id_count + 1
    planets := hmInsert s.planets s.planet_id_count { planet with id := s.planet_id_count } }

/-- src/main.rs lines 92-98, `MainState::remove_planet`:
`self.planets.remove(&id).expect("Tried to remove planet but it wasn't in the hashmap.")`
— a missing id makes the program panic (modelled as `Except.error` carrying the panic
message, apostrophe elided); otherwise the entry is deleted.  (Trail shutdown is
presentation glue, omitted.) -/
def remove_planet (s : MainState) (id : ℕ) : Except String MainState :=
  match s.planets.lookup id with
  | none => .error "Tried to remove planet but it was not in the hashmap."
  | some _ => .ok { s with planets := s.planets.filter (fun e => e.1 != id) }

/-- C7 evaluation at the failing input: removing an id that is not live panics
(aborts with the expect message) instead of returning a recoverable NotFound error,
while removing a live id deletes only that entry — the other body keeps its key, its
fields and the counter are untouched. -/
theorem remove_planet_panics :
    remove_planet ⟨0, []⟩ 0
      = .error "Tried to remove planet but it was not in the hashmap."
    ∧ remove_planet ⟨2, [(0, plW1), (1, plW2)]⟩ 0 = .ok ⟨2, [(1, plW2)]⟩ := by
  exact ⟨rfl, rfl⟩

/-- A registry operation: an insertion (spawn or merge product, routed through
`add_planet_raw`) or a removal by id (`remove_planet`). -/
inductive RegOp where
  | addp : Planet → RegOp
  | removep : ℕ → RegOp

/-- One registry operation applied to the state. -/
def stepOp (s : MainState) : RegOp → Except String MainState
  | .addp p => .ok (add_planet_raw s p)
  | .removep id => remove_planet s id

/-- A sequence of registry operations applied in order (stopping at a panic). -/
def runOps (s : MainState) : List RegOp → Except String MainState
  | [] => .ok s
  | op :: ops =>
    match stepOp s op with
    | .ok s' => runOps s' ops
    | .error e => .error e

/-- The ids handed out by the successive insertions of a run, in order
(each `add_planet_raw` assigns the current counter value). -/
def assignedIds (s : MainState) : List RegOp → List ℕ
  | [] => []
  | op :: ops =>
    match stepOp s op with
    | .ok s' =>
      (match op with
       | .addp _ => [s.planet_id_count]
       | .removep _ => []) ++ assignedIds s' ops
    | .error _ => []

/-- Registry invariant: live keys are distinct and below the counter. -/
def RegInv (s : MainState) : Prop :=
  (keysOf s).Nodup ∧ ∀ k ∈ keysOf s, k < s.planet_id_count

theorem keysOf_filter_subset (m : List (ℕ × Planet)) (f : ℕ × Planet → Bool) :
    List.Sublist ((m.filter f).map Prod.fst) (m.map Prod.fst) :=
  List.Sublist.map Prod.fst (List.filter_sublist m)

theorem stepOp_count_le {s s' : MainState} {op : RegOp} (h : stepOp s op = .ok s') :
    s.planet_id_count ≤ s'.planet_id_count := by
  cases op with
  | addp p =>
    simp only [stepOp, Except.ok.injEq] at h
    rw [← h]
    exact Nat.le_succ _
  | removep id =>
    cases hl : s.planets.lookup id with
    | none => simp [stepOp, remove_planet, hl] at h
    | some p =>
      simp only [stepOp, remove_planet, hl, Except.ok.injEq] at h
      rw [← h]

theorem stepOp_regInv {s s' : MainState} {op : RegOp} (h : stepOp s op = .ok s')
    (hs : RegInv s) : RegInv s' := by
  cases op with
  | addp p =>
    simp only [stepOp, Except.ok.injEq] at h
    subst h
    have hsub : List.Sublist
        ((s.planets.filter (fun e => e.1 != s.planet_id_count)).map Prod.fst)
        (keysOf s) := keysOf_filter_subset _ _
    constructor
    · show List.Nodup (s.planet_id_count ::
        (s.planets.filter (fun e => e.1 != s.planet_id_count)).map Prod.fst)
      refine List.nodup_cons.mpr ⟨?_, hs.1.sublist hsub⟩
      intro hmem
      exact absurd (hs.2 _ (hsub.subset hmem)) (lt_irrefl _)
    · intro k hk
      rcases List.mem_cons.mp hk with rfl | hk'
      · exact Nat.lt_succ_self _
      · exact Nat.lt_succ_of_lt (hs.2 _ (hsub.subset hk'))
  | removep id =>
    cases hl : s.planets.lookup id with
    | none => simp [stepOp, remove_planet, hl] at h
    | some p =>
      simp only [stepOp, remove_planet, hl, Except.ok.injEq] at h
      subst h
      have hsub : List.Sublist ((s.planets.filter (fun e => e.1 != id)).map Prod.fst)
          (keysOf s) := keysOf_filter_subset _ _
      exact ⟨hs.1.sublist hsub, fun k hk => hs.2 _ (hsub.subset hk)⟩

theorem runOps_regInv : ∀ (ops : List RegOp) (s s' : MainState),
    runOps s ops = .ok s' → RegInv s → RegInv s' := by
  intro ops
  induction ops with
  | nil =>
    intro s s' h hs
    simp only [runOps, Except.ok.injEq] at h
    rwa [← h]
  | cons op ops ih =>
    intro s s' h hs
    cases hst : stepOp s op with
    | error e => simp [runOps, hst] at h
    | ok s1 =>
      simp only [runOps, hst] at h
      exact ih s1 s' h (stepOp_regInv hst hs)

theorem assignedIds_lb : ∀ (ops : List RegOp) (s : MainState) (x : ℕ),
    x ∈ assignedIds s ops → s.planet_id_count ≤ x := by
  intro ops
  induction ops with
  | nil => intro s x hx; simp [assignedIds] at hx
  | cons op ops ih =>
    intro s x hx
    cases op with
    | addp p =>
      have hst : stepOp s (.addp p) = .ok (add_planet_raw s p) := rfl
      simp only [assignedIds, hst, List.singleton_append] at hx
      rcases List.mem_cons.mp hx with rfl | hx'
      · exact le_refl _
      · exact le_trans (Nat.le_succ _) (ih (add_planet_raw s p) x hx')
    | removep id =>
      cases hst : stepOp s (.removep id) with
      | error e => simp [assignedIds, hst] at hx
      | ok s1 =>
        simp only [assignedIds, hst, List.nil_append] at hx
        exact le_trans (stepOp_count_le hst) (ih s1 x hx)

theorem assignedIds_pairwise : ∀ (ops : List RegOp) (s : MainState),
    List.Pairwise (· < ·) (assignedIds s ops) := by
  intro ops
  induction ops with
  | nil => intro s; simp [assignedIds]
  | cons op ops ih =>
    intro s
    cases op with
    | addp p =>
      have hst : stepOp s (.addp p) = .ok (add_planet_raw s p) := rfl
      simp only [assignedIds, hst, List.singleton_append]
      refine List.pairwise_cons.mpr ⟨?_, ih (add_planet_raw s p)⟩
      intro x hx
      exact lt_of_lt_of_le (Nat.lt_succ_self _) (assignedIds_lb ops (add_planet_raw s p) x hx)
    | removep id =>
      cases hst : stepOp s (.removep id) with
      | error e => simp [assignedIds, hst]
      | ok s1 =>
        simp only [assignedIds, hst, List.nil_append]
        exact ih s1

/-- C8: starting from the initial registry (counter 0, no bodies), every insertion in
a run of insertions and removals receives the current counter value as its id and
bumps the counter; the ids assigned over the whole run are strictly increasing (hence
never reused, even after removals), and the live ids after any successful run are
distinct. -/
theorem registry_ids_monotone (ops : List RegOp) :
    List.Pairwise (· < ·) (assignedIds ⟨0, []⟩ ops)
    ∧ (∀ s', runOps ⟨0, []⟩ ops = .ok s' → (keysOf s').Nodup)
    ∧ (∀ (s : MainState) (p : Planet),
        (add_planet_raw s p).planet_id_count = s.planet_id_count + 1
        ∧ (add_planet_raw s p).planets.lookup s.planet_id_count
            = some { p with id := s.planet_id_count }) := by
  refine ⟨assignedIds_pairwise ops _, ?_, ?_⟩
  · intro s' h
    have hinv : RegInv ⟨0, []⟩ := ⟨by simp [keysOf], by simp [keysOf]⟩
    exact (runOps_regInv ops _ s' h hinv).1
  · intro s p
    refine ⟨rfl, ?_⟩
    simp [add_planet_raw, hmInsert, List.lookup]

/-- Witness for C8 on a concrete run: two insertions then a removal succeed, the
final registry is reached, and its live keys are distinct. -/
theorem registry_ids_monotone_witness :
    runOps ⟨0, []⟩ [RegOp.addp plW1, RegOp.addp plW1, RegOp.removep 0]
        = .ok ⟨2, [(1, { plW1 with id := 1 })]⟩
    ∧ (keysOf ⟨2, [(1, { plW1 with id := 1 })]⟩).Nodup := by
  refine ⟨rfl, ?_⟩
  exact (registry_ids_monotone [RegOp.addp plW1, RegOp.addp plW1, RegOp.removep 0]).2.1
    ⟨2, [(1, { plW1 with id := 1 })]⟩ rfl

/-- Body read from the registry (`self.planets.get(id)`), with a default for the
total modelling of lookups; every use below is guarded by a successful lookup. -/
def getPlanet (s : MainState) (id : ℕ) : Planet :=
  (s.planets.lookup id).getD ⟨0, (0, 0), (0, 0), (0, 0), 0, 0⟩

/-- Componentwise division of a 2D vector by a scalar (nalgebra `Point2 / f32`,
`Vector2 / f32`). -/
noncomputable def divV (v : ℝ × ℝ) (c : ℝ) : ℝ × ℝ := (v.1 / c, v.2 / c)

/-- The four accumulators of `MainState::collide_planets` (src/main.rs lines 134-137;
the field spelling `inital_momentum` follows the source). -/
structure CollideAcc where
  total_mass : ℝ
  total_volume : ℝ
  inital_momentum : ℝ × ℝ
  sum_of_rm : ℝ × ℝ

/-- The member loop of `MainState::collide_planets` (src/main.rs lines 139-147): for
each member id, look the body up (panicking — `.expect` — if it is not live) and add
its mass, its sphere volume, its momentum `mass * velocity`, and the componentwise
products `position.x * mass` / `position.y * mass` to the accumulators.  The registry
state is threaded through unchanged; `HashSet` iteration order is an arbitrary list. -/
noncomputable def collide_loop (s : MainState) (acc : CollideAcc) :
    List ℕ → Except String (CollideAcc × MainState)
  | [] => .ok (acc, s)
  | id :: rest =>
    match s.planets.lookup id with
    | none => .error "Planet not in hashmap."
    | some p =>
      collide_loop s
        ⟨acc.total_mass + p.mass,
         acc.total_volume + volume_of_sphere p.radius,
         acc.inital_momentum + p.mass • p.velocity,
         (acc.sum_of_rm.1 + p.position.1 * p.mass, acc.sum_of_rm.2 + p.position.2 * p.mass)⟩
        rest

/-- src/main.rs lines 131-155, `MainState::collide_planets`: accumulate over the group,
then build the replacement planet with radius `inverse_volume_of_sphere(total_volume)`,
position `sum_of_rm / total_mass`, velocity `inital_momentum / total_mass` and mass
`total_mass` (id 0, reassigned later by `add_planet_raw`). -/
noncomputable def collide_planets (s : MainState) (group : List ℕ) :
    Except String (Planet × MainState) :=
  (collide_loop s ⟨0, 0, (0, 0), (0, 0)⟩ group).map fun r =>
    (Planet.new 0 (divV r.1.sum_of_rm r.1.total_mass)
      (some (divV r.1.inital_momentum r.1.total_mass))
      (some r.1.total_mass)
      (inverse_volume_of_sphere r.1.total_volume), r.2)

/-- Total mass of a group as read from the registry. -/
noncomputable def sumMass (s : MainState) (g : List ℕ) : ℝ :=
  (g.map fun id => (getPlanet s id).mass).sum

/-- Total sphere volume of a group as read from the registry. -/
noncomputable def sumVolume (s : MainState) (g : List ℕ) : ℝ :=
  (g.map fun id => volume_of_sphere (getPlanet s id).radius).sum

/-- Total momentum of a group as read from the registry. -/
noncomputable def sumMomentum (s : MainState) (g : List ℕ) : ℝ × ℝ :=
  (g.map fun id => (getPlanet s id).mass • (getPlanet s id).velocity).sum

/-- Mass-weighted position sum of a group as read from the registry
(componentwise, as in the source). -/
noncomputable def sumRM (s : MainState) (g : List ℕ) : ℝ × ℝ :=
  (g.map fun id =>
    ((getPlanet s id).position.1 * (getPlanet s id).mass,
     (getPlanet s id).position.2 * (getPlanet s id).mass)).sum

theorem collide_loop_ok : ∀ (g : List ℕ) (s : MainState) (acc acc' : CollideAcc)
    (s' : MainState), collide_loop s acc g = .ok (acc', s') →
    s' = s
    ∧ acc'.total_mass = acc.total_mass + sumMass s g
    ∧ acc'.total_volume = acc.total_volume + sumVolume s g
    ∧ acc'.inital_momentum = acc.inital_momentum + sumMomentum s g
    ∧ acc'.sum_of_rm = acc.sum_of_rm + sumRM s g := by
  intro g
  induction g with
  | nil =>
    intro s acc acc' s' h
    simp only [collide_loop, Except.ok.injEq, Prod.mk.injEq] at h
    obtain ⟨hacc, hs⟩ := h
    subst hacc; subst hs
    refine ⟨rfl, ?_, ?_, ?_, ?_⟩ <;>
      simp [sumMass, sumVolume, sumMomentum, sumRM]
  | cons id rest ih =>
    intro s acc acc' s' h
    cases hl : s.planets.lookup id with
    | none => simp [collide_loop, hl] at h
    | some p =>
      simp only [collide_loop, hl] at h
      obtain ⟨hs, hm, hv, hmo, hrm⟩ := ih s _ acc' s' h
      have hp : getPlanet s id = p := by simp [getPlanet, hl]
      refine ⟨hs, ?_, ?_, ?_, ?_⟩
      · rw [hm]
        simp only [sumMass, List.map_cons, List.sum_cons, hp]
        ring
      · rw [hv]
        simp only [sumVolume, List.map_cons, List.sum_cons, hp]
        ring
      · rw [hmo]
        simp only [sumMomentum, List.map_cons, List.sum_cons, hp]
        rw [add_assoc]
      · rw [hrm]
        simp only [sumRM, List.map_cons, List.sum_cons, hp]
        have hpair : (acc.sum_of_rm.1 + p.position.1 * p.mass,
            acc.sum_of_rm.2 + p.position.2 * p.mass)
            = acc.sum_of_rm + (p.position.1 * p.mass, p.position.2 * p.mass) := rfl
        rw [hpair, add_assoc]

theorem sumRM_eq_smul (s : MainState) : ∀ g : List ℕ,
    sumRM s g = (g.map fun id => (getPlanet s id).mass • (getPlanet s id).position).sum := by
  intro g
  induction g with
  | nil => rfl
  | cons id rest ih =>
    simp only [sumRM, List.map_cons, List.sum_cons] at ih ⊢
    rw [ih]
    congr 1
    have : (getPlanet s id).mass • (getPlanet s id).position
        = ((getPlanet s id).mass * (getPlanet s id).position.1,
           (getPlanet s id).mass * (getPlanet s id).position.2) := rfl
    rw [this, Prod.mk.injEq]
    exact ⟨mul_comm _ _, mul_comm _ _⟩

theorem collide_planets_ok (s : MainState) (g : List ℕ) (p : Planet) (s' : MainState)
    (hok : collide_planets s g = .ok (p, s')) :
    s' = s
    ∧ p = Planet.new 0 (divV (sumRM s g) (sumMass s g))
        (some (divV (sumMomentum s g) (sumMass s g)))
        (some (sumMass s g)) (inverse_volume_of_sphere (sumVolume s g)) := by
  unfold collide_planets at hok
  cases hcl : collide_loop s ⟨0, 0, (0, 0), (0, 0)⟩ g with
  | error e => rw [hcl] at hok; simp [Except.map] at hok
  | ok r =>
    rw [hcl] at hok
    obtain ⟨acc, s2⟩ := r
    simp only [Except.map, Except.ok.injEq, Prod.mk.injEq] at hok
    obtain ⟨hp, hs2⟩ := hok
    obtain ⟨hss, hm, hv, hmo, hrm⟩ := collide_loop_ok g s _ acc s2 hcl
    have hm' : acc.total_mass = sumMass s g := by rw [hm]; exact zero_add _
    have hv' : acc.total_volume = sumVolume s g := by rw [hv]; exact zero_add _
    have hmo' : acc.inital_momentum = sumMomentum s g := by
      rw [hmo]
      exact zero_add _
    have hrm' : acc.sum_of_rm = sumRM s g := by
      rw [hrm]
      exact zero_add _
    exact ⟨by rw [← hs2, hss], by rw [← hp, hm', hv', hmo', hrm']⟩

/-- C3: a successful merge of a non-empty group of positive-mass bodies produces a
replacement whose mass is exactly the sum of the member masses, whose velocity is the
summed momentum divided by the total mass (so it conserves momentum exactly), and
whose position is the mass-weighted centroid of the member positions. -/
theorem collide_planets_conserves (s : MainState) (g : List ℕ) (p : Planet)
    (s' : MainState) (hne : g ≠ [])
    (hmass : ∀ id ∈ g, 0 < (getPlanet s id).mass)
    (hok : collide_planets s g = .ok (p, s')) :
    p.mass = sumMass s g
    ∧ p.velocity = divV (sumMomentum s g) (sumMass s g)
    ∧ p.position = divV (sumRM s g) (sumMass s g)
    ∧ p.mass • p.velocity = sumMomentum s g
    ∧ sumRM s g = (g.map fun id => (getPlanet s id).mass • (getPlanet s id).position).sum := by
  obtain ⟨-, hp⟩ := collide_planets_ok s g p s' hok
  have hMpos : 0 < sumMass s g := by
    refine List.sum_pos _ ?_ ?_
    · intro x hx
      obtain ⟨id, hid, rfl⟩ := List.mem_map.mp hx
      exact hmass id hid
    · simpa using hne
  have hmassp : p.mass = sumMass s g := by rw [hp]; rfl
  have hvel : p.velocity = divV (sumMomentum s g) (sumMass s g) := by rw [hp]; rfl
  refine ⟨hmassp, hvel, by rw [hp]; rfl, ?_, sumRM_eq_smul s g⟩
  rw [hmassp, hvel]
  have hMne : sumMass s g ≠ 0 := ne_of_gt hMpos
  show (sumMass s g * ((sumMomentum s g).1 / sumMass s g),
        sumMass s g * ((sumMomentum s g).2 / sumMass s g)) = sumMomentum s g
  rw [mul_div_cancel₀ _ hMne, mul_div_cancel₀ _ hMne]

/-- Concrete one-body registry used by witnesses. -/
def sWm : MainState := ⟨1, [(0, plW1)]⟩

/-- The replacement body computed by `collide_planets sWm [0]`, written in the exact
shape the accumulator loop produces. -/
noncomputable def mergedW : Planet :=
  Planet.new 0
    (divV (0 + plW1.position.1 * plW1.mass, 0 + plW1.position.2 * plW1.mass) (0 + plW1.mass))
    (some (divV ((0, 0) + plW1.mass • plW1.velocity) (0 + plW1.mass)))
    (some (0 + plW1.mass))
    (inverse_volume_of_sphere (0 + volume_of_sphere plW1.radius))

/-- Witness for C3 on a concrete singleton group. -/
theorem collide_planets_conserves_witness :
    (([0] : List ℕ) ≠ [])
    ∧ (0 : ℝ) < (getPlanet sWm 0).mass
    ∧ collide_planets sWm [0] = .ok (mergedW, sWm)
    ∧ mergedW.mass = sumMass sWm [0] := by
  have hne : ([0] : List ℕ) ≠ [] := by simp
  have hmass : ∀ id ∈ ([0] : List ℕ), 0 < (getPlanet sWm id).mass := by
    intro id hid
    simp only [List.mem_singleton] at hid
    subst hid
    show (0 : ℝ) < (1 : ℝ)
    norm_num
  have hok : collide_planets sWm [0] = .ok (mergedW, sWm) := rfl
  exact ⟨hne, hmass 0 (by simp), hok,
    (collide_planets_conserves sWm [0] mergedW sWm hne hmass hok).1⟩

/-- C4: `inverse_volume_of_sphere` is a right inverse of `volume_of_sphere` on
nonnegative volumes, and consequently a successful merge of a group of
nonnegative-radius bodies produces a replacement whose sphere volume
`(4/3)*pi*new_radius^3` equals the sum of the member sphere volumes. -/
theorem collide_planets_volume :
    (∀ v : ℝ, 0 ≤ v → volume_of_sphere (inverse_volume_of_sphere v) = v)
    ∧ (∀ (s : MainState) (g : List ℕ) (p : Planet) (s' : MainState),
        (∀ id ∈ g, 0 ≤ (getPlanet s id).radius) →
        collide_planets s g = .ok (p, s') →
        volume_of_sphere p.radius = sumVolume s g) := by
  have hinv : ∀ v : ℝ, 0 ≤ v → volume_of_sphere (inverse_volume_of_sphere v) = v := by
    intro v hv
    have hw : 0 ≤ (3 * v) / (4 * Real.pi) := by positivity
    unfold volume_of_sphere inverse_volume_of_sphere
    rw [← Real.rpow_natCast (((3 * v) / (4 * Real.pi)) ^ ((1 : ℝ) / 3)) 3,
      ← Real.rpow_mul hw]
    norm_num
    field_simp
    ring
  refine ⟨hinv, ?_⟩
  intro s g p s' hrad hok
  obtain ⟨-, hp⟩ := collide_planets_ok s g p s' hok
  have hVnonneg : 0 ≤ sumVolume s g := by
    refine List.sum_nonneg ?_
    intro x hx
    obtain ⟨id, hid, rfl⟩ := List.mem_map.mp hx
    unfold volume_of_sphere
    have := hrad id hid
    positivity
  have hr : p.radius = inverse_volume_of_sphere (sumVolume s g) := by rw [hp]; rfl
  rw [hr, hinv _ hVnonneg]

/-- Witness for C4: the right-inverse law applied at the concrete volume 1. -/
theorem collide_planets_volume_witness :
    (0 : ℝ) ≤ 1 ∧ volume_of_sphere (inverse_volume_of_sphere 1) = 1 :=
  ⟨by norm_num, collide_planets_volume.1 1 (by norm_num)⟩

/-- The member-removal loop of `MainState::resolve_collisions`
(src/main.rs lines 234-236): remove every id of the group, panicking on a stale id. -/
noncomputable def removeGroup (s : MainState) : List ℕ → Except String MainState
  | [] => .ok s
  | id :: rest =>
    match remove_planet s id with
    | .ok s' => removeGroup s' rest
    | .error e => .error e

/-- The first loop of `MainState::resolve_collisions` (src/main.rs lines 230-237):
for each group, compute the replacement planet with `collide_planets`, push it, then
remove the group members. -/
noncomputable def resolveLoop (s : MainState) (new_planets : List Planet) :
    List (List ℕ) → Except String (List Planet × MainState)
  | [] => .ok (new_planets, s)
  | g :: rest =>
    match collide_planets s g with
    | .error e => .error e
    | .ok r =>
      match removeGroup r.2 g with
      | .error e => .error e
      | .ok s2 => resolveLoop s2 (new_planets ++ [r.1]) rest

/-- src/main.rs lines 228-243, `MainState::resolve_collisions`: run the group loop,
then insert every computed replacement via `add_planet_raw`. -/
noncomputable def resolve_collisions (s : MainState) (groups : List (List ℕ)) :
    Except String MainState :=
  match resolveLoop s [] groups with
  | .error e => .error e
  | .ok r => .ok (r.1.foldl add_planet_raw r.2)

/-- C10: `collide_planets` is read-only with respect to the registry — whenever it
returns a replacement body, the returned registry state is exactly the input state
(every stored body with all its fields, the live id set, and the id counter are
unchanged); and on a group processed by `resolve_collisions` the removals and the
insertion happen only after the replacement has been computed from the prior state. -/
theorem collide_planets_readonly :
    (∀ (s : MainState) (g : List ℕ) (p : Planet) (s' : MainState),
        collide_planets s g = .ok (p, s') →
        s' = s ∧ s'.planets = s.planets ∧ s'.planet_id_count = s.planet_id_count
          ∧ keysOf s' = keysOf s)
    ∧ (∀ (s : MainState) (g : List ℕ),
        resolve_collisions s [g]
          = (collide_planets s g).bind fun r =>
              (removeGroup r.2 g).map fun s2 => add_planet_raw s2 r.1) := by
  constructor
  · intro s g p s' hok
    obtain ⟨hs, -⟩ := collide_planets_ok s g p s' hok
    exact ⟨hs, by rw [hs], by rw [hs], by rw [hs]⟩
  · intro s g
    unfold resolve_collisions
    cases hc : collide_planets s g with
    | error e => simp [resolveLoop, hc, Except.bind]
    | ok r =>
      cases hr : removeGroup r.2 g with
      | error e => simp [resolveLoop, hc, hr, Except.bind, Except.map]
      | ok s2 =>
        simp [resolveLoop, hc, hr, Except.bind, Except.map, List.foldl]

/-- Witness for C10 on the concrete singleton group of `sWm`: the merge succeeds and
the returned registry is the input registry. -/
theorem collide_planets_readonly_witness :
    collide_planets sWm [0] = .ok (mergedW, sWm) ∧ sWm = sWm :=
  ⟨rfl, (collide_planets_readonly.1 sWm [0] mergedW sWm rfl).1⟩

/-- The index pairs visited by the all-pairs scan of `MainState::update`
(src/main.rs lines 264-266): `for i in 0..len-1 { for j in i+1..len { ... } }`. -/
def updatePairs (len : ℕ) : List (ℕ × ℕ) :=
  (List.range (len - 1)).flatMap fun i =>
    (List.range' (i + 1) (len - (i + 1))).map fun j => (i, j)

/-- The key pairs `(keys[i], keys[j])` actually tested by one step of
`MainState::update` (src/main.rs lines 260-271). -/
def scannedPairs (keys : List ℕ) : List (ℕ × ℕ) :=
  (updatePairs keys.length).map fun q => (keys.getD q.1 0, keys.getD q.2 0)

/-- The scanned pairs routed to `put_in_collision_group` — those for which the
collision test `c` holds (src/main.rs lines 274-275). -/
def collisionPairs (c : ℕ → ℕ → Bool) (keys : List ℕ) : List (ℕ × ℕ) :=
  (scannedPairs keys).filter fun q => c q.1 q.2

/-- The scanned pairs routed to `newtonian_grav` — those for which the collision
test `c` fails (src/main.rs lines 276-278). -/
def gravityPairs (c : ℕ → ℕ → Bool) (keys : List ℕ) : List (ℕ × ℕ) :=
  (scannedPairs keys).filter fun q => !(c q.1 q.2)

theorem mem_updatePairs (n i j : ℕ) : (i, j) ∈ updatePairs n ↔ i < j ∧ j < n := by
  constructor
  · intro h
    rw [updatePairs, List.mem_flatMap] at h
    obtain ⟨a, ha, hmem⟩ := h
    rw [List.mem_map] at hmem
    obtain ⟨b, hb, heq⟩ := hmem
    obtain ⟨rfl, rfl⟩ : a = i ∧ b = j := by
      rw [Prod.mk.injEq] at heq
      exact heq
    rw [List.mem_range] at ha
    rw [List.mem_range'_1] at hb
    omega
  · rintro ⟨hij, hjn⟩
    rw [updatePairs, List.mem_flatMap]
    refine ⟨i, List.mem_range.mpr (by omega), List.mem_map.mpr
      ⟨j, List.mem_range'_1.mpr (by omega), rfl⟩⟩

theorem nodup_updatePairs (n : ℕ) : (updatePairs n).Nodup := by
  rw [updatePairs]
  refine List.nodup_flatMap.mpr ⟨?_, ?_⟩
  · intro i _
    exact (List.nodup_range' _ _).map fun x y hxy => congrArg Prod.snd hxy
  · refine List.Pairwise.imp ?_ (List.nodup_range _)
    intro x y hxy
    intro q hqx hqy
    rw [List.mem_map] at hqx hqy
    obtain ⟨jx, -, rfl⟩ := hqx
    obtain ⟨jy, -, heq⟩ := hqy
    exact hxy (congrArg Prod.fst heq).symm

theorem countP_eq_one_of_unique {α : Type} (p : α → Bool) :
    ∀ (l : List α) (e : α), l.Nodup → e ∈ l → p e = true →
      (∀ x ∈ l, p x = true → x = e) → l.countP p = 1 := by
  intro l
  induction l with
  | nil => intro e _ he; simp at he
  | cons x xs ih =>
    intro e hnd he hpe huniq
    rcases List.mem_cons.mp he with rfl | he'
    · have hzero : xs.countP p = 0 := by
        rw [List.countP_eq_zero]
        intro a ha hpa
        have hae : a = e := huniq a (List.mem_cons_of_mem _ ha) hpa
        subst hae
        exact (List.nodup_cons.mp hnd).1 ha
      rw [List.countP_cons, hzero, if_pos hpe]
    · have hx : x ≠ e := fun h => (List.nodup_cons.mp hnd).1 (h ▸ he')
      cases hp : p x with
      | true => exact absurd (huniq x (List.mem_cons_self _ _) hp) hx
      | false =>
        rw [List.countP_cons, hp]
        simp only [if_false, Bool.false_eq_true, add_zero]
        exact ih e (List.nodup_cons.mp hnd).2 he' hpe
          fun a ha hpa => huniq a (List.mem_cons_of_mem _ ha) hpa

theorem getD_eq_get_of_lt (l : List ℕ) (i : ℕ) (h : i < l.length) :
    l.getD i 0 = l.get ⟨i, h⟩ := by
  rw [List.getD_eq_getElem?_getD, List.getElem?_eq_getElem h]
  rfl

theorem countP_scanned_ordered (keys : List ℕ) (hnd : keys.Nodup) (a b : ℕ)
    (ia ib : Fin keys.length) (hia : keys.get ia = a) (hib : keys.get ib = b)
    (hlt : (ia : ℕ) < (ib : ℕ)) :
    (scannedPairs keys).countP (fun q => decide (q = (a, b) ∨ q = (b, a))) = 1 := by
  rw [scannedPairs, List.countP_map]
  refine countP_eq_one_of_unique _ (updatePairs keys.length) ((ia : ℕ), (ib : ℕ))
    (nodup_updatePairs _) ((mem_updatePairs _ _ _).mpr ⟨hlt, ib.isLt⟩) ?_ ?_
  · show decide ((keys.getD (ia : ℕ) 0, keys.getD (ib : ℕ) 0) = (a, b)
      ∨ (keys.getD (ia : ℕ) 0, keys.getD (ib : ℕ) 0) = (b, a)) = true
    refine decide_eq_true (Or.inl ?_)
    rw [getD_eq_get_of_lt _ _ ia.isLt, getD_eq_get_of_lt _ _ ib.isLt]
    rw [Prod.mk.injEq]
    exact ⟨hia, hib⟩
  · rintro ⟨i, j⟩ hmem hpred
    obtain ⟨hij, hjn⟩ := (mem_updatePairs _ _ _).mp hmem
    have hin : i < keys.length := lt_trans hij hjn
    have hpred' : (keys.getD i 0, keys.getD j 0) = (a, b)
        ∨ (keys.getD i 0, keys.getD j 0) = (b, a) := of_decide_eq_true hpred
    rw [getD_eq_get_of_lt _ _ hin, getD_eq_get_of_lt _ _ hjn] at hpred'
    rcases hpred' with heq | heq
    · rw [Prod.mk.injEq] at heq
      have h1 : (⟨i, hin⟩ : Fin keys.length) = ia :=
        (hnd.get_inj_iff).mp (by rw [heq.1, hia])
      have h2 : (⟨j, hjn⟩ : Fin keys.length) = ib :=
        (hnd.get_inj_iff).mp (by rw [heq.2, hib])
      have hi : i = (ia : ℕ) := congrArg Fin.val h1
      have hj : j = (ib : ℕ) := congrArg Fin.val h2
      rw [Prod.mk.injEq]
      exact ⟨hi, hj⟩
    · rw [Prod.mk.injEq] at heq
      have h1 : (⟨i, hin⟩ : Fin keys.length) = ib :=
        (hnd.get_inj_iff).mp (by rw [heq.1, hib])
      have h2 : (⟨j, hjn⟩ : Fin keys.length) = ia :=
        (hnd.get_inj_iff).mp (by rw [heq.2, hia])
      have hi : i = (ib : ℕ) := congrArg Fin.val h1
      have hj : j = (ia : ℕ) := congrArg Fin.val h2
      omega

theorem countP_and_not_split {α : Type} (p q : α → Bool) :
    ∀ l : List α, l.countP (fun x => p x && q x) + l.countP (fun x => p x && !q x)
      = l.countP p := by
  intro l
  induction l with
  | nil => rfl
  | cons x xs ih =>
    simp only [List.countP_cons]
    cases hp : p x <;> cases hq : q x <;> simp <;> omega

/-- C6: in the all-pairs scan of one `update` step over distinct live keys, every
unordered pair of distinct live bodies is tested exactly once (it occurs exactly once
among the scanned pairs, in one orientation), each tested pair is routed to exactly
one of the two paths, and a pair reaches the collision-grouping path only when the
collision test holds and the gravity path only when it fails. -/
theorem update_scans_each_pair_once (keys : List ℕ) (c : ℕ → ℕ → Bool) (a b : ℕ)
    (hnd : keys.Nodup) (ha : a ∈ keys) (hb : b ∈ keys) (hab : a ≠ b) :
    (scannedPairs keys).countP (fun q => decide (q = (a, b) ∨ q = (b, a))) = 1
    ∧ (collisionPairs c keys).countP (fun q => decide (q = (a, b) ∨ q = (b, a)))
      + (gravityPairs c keys).countP (fun q => decide (q = (a, b) ∨ q = (b, a))) = 1
    ∧ (∀ q ∈ collisionPairs c keys, c q.1 q.2 = true)
    ∧ (∀ q ∈ gravityPairs c keys, c q.1 q.2 = false) := by
  obtain ⟨ia, hia⟩ := List.mem_iff_get.mp ha
  obtain ⟨ib, hib⟩ := List.mem_iff_get.mp hb
  have hne : (ia : ℕ) ≠ (ib : ℕ) := by
    intro h
    apply hab
    rw [← hia, ← hib]
    exact congrArg keys.get (Fin.ext h)
  have hcount : (scannedPairs keys).countP
      (fun q => decide (q = (a, b) ∨ q = (b, a))) = 1 := by
    rcases Nat.lt_or_ge (ia : ℕ) (ib : ℕ) with hlt | hge
    · exact countP_scanned_ordered keys hnd a b ia ib hia hib hlt
    · have hlt : (ib : ℕ) < (ia : ℕ) := by omega
      have h2 := countP_scanned_ordered keys hnd b a ib ia hib hia hlt
      rw [← h2]
      apply List.countP_congr
      intro x _
      simp only [decide_eq_true_eq]
      exact or_comm
  refine ⟨hcount, ?_, ?_, ?_⟩
  · rw [collisionPairs, gravityPairs, List.countP_filter, List.countP_filter]
    rw [← hcount]
    exact countP_and_not_split _ _ _
  · intro q hq
    rw [collisionPairs, List.mem_filter] at hq
    exact hq.2
  · intro q hq
    rw [gravityPairs, List.mem_filter] at hq
    simpa using hq.2

/-- Witness for C6 on the concrete key list [5, 7, 9] and the unordered pair {5, 9}. -/
theorem update_scans_each_pair_once_witness :
    ([5, 7, 9] : List ℕ).Nodup
    ∧ (5 : ℕ) ∈ ([5, 7, 9] : List ℕ) ∧ (9 : ℕ) ∈ ([5, 7, 9] : List ℕ) ∧ (5 : ℕ) ≠ 9
    ∧ (scannedPairs [5, 7, 9]).countP
        (fun q => decide (q = (5, 9) ∨ q = (9, 5))) = 1 := by
  refine ⟨by decide, by decide, by decide, by decide, ?_⟩
  exact (update_scans_each_pair_once [5, 7, 9] (fun x y => x + y == 14) 5 9
    (by decide) (by decide) (by decide) (by decide)).1
